import Mathlib

/-!
Verification of the ollama-manager load balancer against its specification.

The Rust sources are shallowly embedded: each endpoint is a record whose
atomic fields (`healthy`, `current_connections`) become plain fields updated
by pure state-passing functions; u32 / usize arithmetic wraps explicitly
modulo 2^32 / 2^64; fallible operations return `Except`; HTTP traffic is
modelled by passing the observed transport results as explicit inputs.
-/

namespace OllamaManager

/-- modulus of Rust u32 arithmetic -/
def u32Mod : Nat := 2 ^ 32

/-- modulus of Rust usize (64-bit) arithmetic -/
def usizeMod : Nat := 2 ^ 64

/-- wrapping add of 1 on a u32 value (AtomicU32.fetch_add 1) -/
def u32wrapAdd (c : Nat) : Nat := (c + 1) % u32Mod

/-- wrapping sub of 1 on a u32 value (AtomicU32.fetch_sub 1) -/
def u32wrapSub (c : Nat) : Nat := (c + u32Mod - 1) % u32Mod

/-- `Endpoint` from src/endpoint.rs: url, weight, max_connections are set at
construction; `healthy` embeds the AtomicBool, `current_connections` the
AtomicU32 (a Nat that is kept below `u32Mod`). -/
structure Endpoint where
  url : String
  weight : Nat
  max_connections : Nat
  healthy : Bool
  current_connections : Nat
deriving DecidableEq, Repr

/-- `Endpoint::new`: healthy starts true, current_connections starts 0. -/
def Endpoint.new (url : String) (weight : Nat) (max_connections : Nat) : Endpoint :=
  { url := url, weight := weight, max_connections := max_connections,
    healthy := true, current_connections := 0 }

/-- `Endpoint::is_healthy` -/
def Endpoint.is_healthy (e : Endpoint) : Bool := e.healthy

/-- `Endpoint::mark_healthy` -/
def Endpoint.mark_healthy (e : Endpoint) : Endpoint := { e with healthy := true }

/-- `Endpoint::mark_unhealthy` -/
def Endpoint.mark_unhealthy (e : Endpoint) : Endpoint := { e with healthy := false }

/-- `Endpoint::increment_connections`: fetch_add 1 (wrapping), read the
pre-value; if pre >= max_connections, fetch_sub 1 (wrapping) and return
false, else return true. Returns the endpoint state after the call and the
boolean result. -/
def Endpoint.increment_connections (e : Endpoint) : Endpoint × Bool :=
  let current := e.current_connections
  let e1 : Endpoint := { e with current_connections := u32wrapAdd e.current_connections }
  if e.max_connections ≤ current then
    ({ e1 with current_connections := u32wrapSub e1.current_connections }, false)
  else
    (e1, true)

/-- `Endpoint::decrement_connections`: unconditional wrapping fetch_sub 1. -/
def Endpoint.decrement_connections (e : Endpoint) : Endpoint :=
  { e with current_connections := u32wrapSub e.current_connections }

/-- `Endpoint::get_connections` -/
def Endpoint.get_connections (e : Endpoint) : Nat := e.current_connections

/-- the endpoint fields are u32 values -/
def Endpoint.wf (e : Endpoint) : Prop :=
  e.current_connections < u32Mod ∧ e.max_connections < u32Mod

/-- `LoadBalancerError` from src/error.rs (payloads reduced to strings). -/
inductive LoadBalancerError where
  | NoHealthyEndpoints
  | ConfigError (msg : String)
  | HttpError (msg : String)
  | IoError (msg : String)
  | HealthCheckError (msg : String)
  | SerializationError (msg : String)
deriving DecidableEq, Repr

/-- `RoundRobin` from src/lb/round_robin.rs: the AtomicUsize counter. -/
structure RoundRobin where
  current : Nat
deriving DecidableEq, Repr

/-- `RoundRobin::next_endpoint`: filter healthy endpoints; if the filtered
list is empty fail with NoHealthyEndpoints; otherwise fetch_add 1 on the
counter (wrapping usize) and pick index pre-counter mod len. Returns the
chosen endpoint together with the strategy state after the call. -/
def RoundRobin.next_endpoint (rr : RoundRobin) (endpoints : List Endpoint) :
    Except LoadBalancerError (Endpoint × RoundRobin) :=
  let healthy_endpoints := endpoints.filter (fun e => e.is_healthy)
  if h : healthy_endpoints.length = 0 then
    .error .NoHealthyEndpoints
  else
    let current := rr.current
    let index := current % healthy_endpoints.length
    .ok (healthy_endpoints.get ⟨index, Nat.mod_lt current (Nat.pos_of_ne_zero h)⟩,
         ⟨(rr.current + 1) % usizeMod⟩)

/-- Rust `Iterator::min_by_key` (first element is returned on ties):
fold keeping the accumulator unless the new key is strictly smaller. -/
def min_by_key (key : Endpoint → Nat) : List Endpoint → Option Endpoint
  | [] => none
  | x :: xs => some (xs.foldl (fun acc y => if key y < key acc then y else acc) x)

/-- `LeastConnections::next_endpoint`: filter healthy; error when empty;
otherwise min_by_key on get_connections, ok_or NoHealthyEndpoints. -/
def LeastConnections.next_endpoint (endpoints : List Endpoint) :
    Except LoadBalancerError Endpoint :=
  let healthy_endpoints := endpoints.filter (fun e => e.is_healthy)
  if healthy_endpoints.length = 0 then
    .error .NoHealthyEndpoints
  else
    match min_by_key Endpoint.get_connections healthy_endpoints with
    | some e => .ok e
    | none => .error .NoHealthyEndpoints

/-- `RandomStrategy::next_endpoint`: filter healthy; error when empty;
otherwise pick index `rng.gen_range(0..len)`. The PRNG draw is modelled as
an arbitrary natural `draw`, reduced mod len, which ranges over exactly the
values gen_range can produce. -/
def RandomStrategy.next_endpoint (draw : Nat) (endpoints : List Endpoint) :
    Except LoadBalancerError Endpoint :=
  let healthy_endpoints := endpoints.filter (fun e => e.is_healthy)
  if h : healthy_endpoints.length = 0 then
    .error .NoHealthyEndpoints
  else
    .ok (healthy_endpoints.get
      ⟨draw % healthy_endpoints.length, Nat.mod_lt draw (Nat.pos_of_ne_zero h)⟩)

/-- minimal JSON value, the shape serde_json deserializes from -/
inductive Json where
  | null
  | jbool (b : Bool)
  | jnum (n : Int)
  | jstr (s : String)
  | jarr (elems : List Json)
  | jobj (fields : List (String × Json))

/-- field lookup on a JSON object (serde: first matching key; none on
a non-object or a missing field) -/
def Json.getField : Json → String → Option Json
  | .jobj fields, k => (fields.find? (fun p => p.1 == k)).map (fun p => p.2)
  | _, _ => none

/-- `Model` from src/model_manager.rs: the two deserialized string fields. -/
structure Model where
  name : String
  model : String
deriving DecidableEq, Repr

/-- `ModelsResponse` from src/model_manager.rs. -/
structure ModelsResponse where
  models : List Model
deriving DecidableEq, Repr

/-- serde deserialization of `Model`: both fields must be present strings. -/
def decodeModel (j : Json) : Option Model :=
  match j.getField "name", j.getField "model" with
  | some (.jstr n), some (.jstr m) => some { name := n, model := m }
  | _, _ => none

/-- serde deserialization of `ModelsResponse`: the `models` field must be
present and be an array whose every element deserializes as a `Model`. -/
def decodeModelsResponse (j : Json) : Option ModelsResponse :=
  match j.getField "models" with
  | some (.jarr elems) => (elems.mapM decodeModel).map ModelsResponse.mk
  | _ => none

/-- `ModelManager::is_model_present`: the GET on `{url}/api/tags` is modelled
by its observed result `resp` (transport error, or status with body). A
transport failure maps to HttpError; then `.json()` runs on the body with NO
status check; decode failure maps to HttpError; on a decoded body the result
is whether any model entry has `name` or `model` equal to the queried name. -/
def is_model_present (resp : Except String (Nat × Json)) (model_name : String) :
    Except LoadBalancerError Bool :=
  match resp with
  | .error e => .error (.HttpError e)
  | .ok (_status, body) =>
    match decodeModelsResponse body with
    | none => .error (.HttpError "error decoding response body")
    | some ms =>
      .ok (ms.models.any (fun model => model.name == model_name || model.model == model_name))

/-- `ModelManager::ensure_model` over the observed probe results: on
`is_model_present` ok-true mark healthy and succeed; on ok-false run
pull_model (its observed result is `pullResult`), marking healthy on success
and unhealthy on error; on a presence error mark unhealthy and propagate. -/
def ensure_model (e : Endpoint) (present : Except LoadBalancerError Bool)
    (pullResult : Except LoadBalancerError Unit) :
    Endpoint × Except LoadBalancerError Unit :=
  match present with
  | .ok true => (e.mark_healthy, .ok ())
  | .ok false =>
    match pullResult with
    | .ok _ => (e.mark_healthy, .ok ())
    | .error err => (e.mark_unhealthy, .error err)
  | .error err => (e.mark_unhealthy, .error err)

/-- one bootstrap entry: an endpoint with the observed results of its
`is_model_present` and `pull_model` calls -/
structure BootEntry where
  ep : Endpoint
  present : Except LoadBalancerError Bool
  pullResult : Except LoadBalancerError Unit

/-- models `initialize_system` from src/main.rs: for each endpoint in order,
run `ensure_model`; on Ok mark the endpoint healthy, on Err mark it
unhealthy (the error is only logged). Afterwards, if no endpoint is healthy,
fail with ConfigError; otherwise succeed. Returns the updated endpoints and
the overall result. -/
def initSystem (entries : List BootEntry) :
    List Endpoint × Except LoadBalancerError Unit :=
  let updated := entries.map (fun t =>
    let r := ensure_model t.ep t.present t.pullResult
    match r.2 with
    | .ok _ => r.1.mark_healthy
    | .error _ => r.1.mark_unhealthy)
  if updated.any (fun e => e.is_healthy) then
    (updated, .ok ())
  else
    (updated, .error (.ConfigError "No healthy endpoints after initialization"))

/-- reqwest `StatusCode::is_success`: 2xx -/
def statusIsSuccess (s : Nat) : Bool := decide (200 ≤ s ∧ s ≤ 299)

/-- `HttpHealthCheck::check_health` over the observed probe results:
`liveness` is the result of GET on the base url (transport error or status),
`present` the result of the model-presence probe. basic_health is a 2xx
status; if it fails, mark unhealthy and return Ok false; otherwise on
present ok-true mark healthy and return Ok true, and on present ok-false or
error mark unhealthy and return Ok false. Returns the endpoint state after
the call and the returned value. -/
def check_health (e : Endpoint) (liveness : Except String Nat)
    (present : Except LoadBalancerError Bool) :
    Endpoint × Except LoadBalancerError Bool :=
  let basic_health :=
    match liveness with
    | .ok status => statusIsSuccess status
    | .error _ => false
  if basic_health = false then
    (e.mark_unhealthy, .ok false)
  else
    match present with
    | .ok true => (e.mark_healthy, .ok true)
    | .ok false => (e.mark_unhealthy, .ok false)
    | .error _ => (e.mark_unhealthy, .ok false)

/-- one endpoint step of the loop body in
`HealthChecker::start_health_checks`: run check_single_endpoint; on Ok the
result is only logged; on Err, log and mark the endpoint unhealthy. -/
def health_loop_step (e : Endpoint) (liveness : Except String Nat)
    (present : Except LoadBalancerError Bool) : Endpoint :=
  let r := check_health e liveness present
  match r.2 with
  | .ok _ => r.1
  | .error _ => r.1.mark_unhealthy

/-- outcome of one pass through `ConnectionMiddlewareService::call`:
the state of the picked endpoint afterwards (none when the pick failed)
and whether the request was forwarded to the inner service -/
structure MiddlewareOutcome where
  endpointAfter : Option Endpoint
  forwarded : Bool
deriving DecidableEq, Repr

/-- `ConnectionMiddlewareService::call` from src/middleware.rs, over the
observed pick result: when `lb.get_endpoint()` succeeds, the service calls
`increment_connections` and DISCARDS its boolean result, always forwards the
request to the inner service, then unconditionally calls
`decrement_connections`; when the pick fails it logs and forwards the
request with no accounting at all. (`handle_proxy` in src/main.rs performs
no connection accounting of its own, and the router in `main` attaches no
ConnectionMiddleware layer.) -/
def middleware_call (pick : Except LoadBalancerError Endpoint) : MiddlewareOutcome :=
  match pick with
  | .ok endpoint =>
    let r := endpoint.increment_connections
    let e2 := r.1.decrement_connections
    { endpointAfter := some e2, forwarded := true }
  | .error _ =>
    { endpointAfter := none, forwarded := true }

/-- a chunk of body bytes -/
abbrev Chunk := List Nat

/-- substring test (Rust `str::contains`) -/
def strContainsSub (hay pat : String) : Bool :=
  (List.range (hay.toList.length + 1)).any
    (fun i => pat.toList.isPrefixOf (hay.toList.drop i))

/-- the upstream reqwest response as observed: status, headers (names
lowercase, as reqwest normalizes them), and the body as a stream of chunk
results (a transport error ends the upstream stream) -/
structure UpstreamResponse where
  status : Nat
  headers : List (String × String)
  chunks : List (Except String Chunk)

/-- the `is_stream` test in `handle_proxy`: the first content-type header
value contains "application/x-ndjson" (false when the header is absent) -/
def is_stream (headers : List (String × String)) : Bool :=
  match headers.find? (fun p => p.1 == "content-type") with
  | some p => strContainsSub p.2 "application/x-ndjson"
  | none => false

/-- body of the response returned downstream -/
inductive ProxyBody where
  | buffered (bytes : Chunk)
  | streamed (items : List (Except String Chunk))

/-- the response returned downstream by `handle_proxy` -/
structure DownstreamResponse where
  status : Nat
  headers : List (String × String)
  body : ProxyBody

/-- `response.bytes()`: buffer the whole upstream body, failing on the first
transport error -/
def collectBytes : List (Except String Chunk) → Except String Chunk
  | [] => .ok []
  | .ok b :: rest => (collectBytes rest).map (fun t => b ++ t)
  | .error e :: _ => .error e

/-- the response-building tail of `handle_proxy` (src/main.rs): when the
upstream content-type contains application/x-ndjson, build a streaming
response: its status is the upstream status, its headers are ONLY the
hardcoded content-type application/x-ndjson (the `response_headers` map the
code rebuilds from the upstream headers is never attached to the builder),
and its body maps each upstream chunk result through, turning a transport
error into an io::Error. Otherwise buffer the body (propagating a transport
error) and copy status and headers through. -/
def handle_response (resp : UpstreamResponse) :
    Except LoadBalancerError DownstreamResponse :=
  if is_stream resp.headers then
    .ok { status := resp.status,
          headers := [("content-type", "application/x-ndjson")],
          body := .streamed (resp.chunks.map (fun r =>
            match r with
            | .ok bytes => .ok bytes
            | .error err => .error ("io error: " ++ err))) }
  else
    match collectBytes resp.chunks with
    | .error e => .error (.HttpError e)
    | .ok bytes =>
      .ok { status := resp.status, headers := resp.headers, body := .buffered bytes }

/-- K successive picks of the round-robin strategy over a fixed endpoint
list, threading the counter state; stops early only on NoHealthyEndpoints -/
def rrRun (endpoints : List Endpoint) : RoundRobin → Nat → List Endpoint × RoundRobin
  | rr, 0 => ([], rr)
  | rr, Nat.succ k =>
    match rr.next_endpoint endpoints with
    | .ok (e, rr1) =>
      let rest := rrRun endpoints rr1 k
      (e :: rest.1, rest.2)
    | .error _ => ([], rr)

/-- `true` on `Except.ok`, `false` on `Except.error` -/
def exceptOk {ε α : Type} : Except ε α → Bool
  | .ok _ => true
  | .error _ => false

/-- default endpoint used for positional lookup in statements -/
def defaultEndpoint : Endpoint := Endpoint.new "" 0 0

/-- transporting List.get along an equality of lists -/
theorem list_get_congr (l1 l2 : List Endpoint) (hEq : l1 = l2) (i : Nat)
    (h1 : i < l1.length) (h2 : i < l2.length) :
    l1.get ⟨i, h1⟩ = l2.get ⟨i, h2⟩ := by
  cases hEq
  rfl

theorem u32Mod_eq : u32Mod = 4294967296 := by norm_num [u32Mod]

theorem u32wrapAdd_eq (c : Nat) (h : c + 1 < u32Mod) : u32wrapAdd c = c + 1 := by
  rw [u32Mod_eq] at h
  simp only [u32wrapAdd, u32Mod_eq]
  omega

theorem u32wrapSub_u32wrapAdd (c : Nat) (h : c < u32Mod) :
    u32wrapSub (u32wrapAdd c) = c := by
  rw [u32Mod_eq] at h
  simp only [u32wrapAdd, u32wrapSub, u32Mod_eq]
  omega

theorem u32wrapSub_eq (c : Nat) (h0 : 0 < c) (h : c < u32Mod) : u32wrapSub c = c - 1 := by
  rw [u32Mod_eq] at h
  simp only [u32wrapSub, u32Mod_eq]
  omega

theorem u32wrapSub_zero : u32wrapSub 0 = u32Mod - 1 := by
  simp only [u32wrapSub, u32Mod_eq]

/-- C2: `try_acquire` (`increment_connections`) returns true iff the
pre-increment `current_connections` is strictly below `max_connections`; on
success the counter grows by exactly one (no other field changes), and on
failure the fetch-add is undone, leaving the endpoint exactly as it was. -/
theorem C2_try_acquire (e : Endpoint) (hw : e.wf) :
    ((e.increment_connections).2 = true ↔
      e.current_connections < e.max_connections) ∧
    (e.current_connections < e.max_connections →
      (e.increment_connections).1 =
        { e with current_connections := e.current_connections + 1 }) ∧
    (¬ e.current_connections < e.max_connections →
      (e.increment_connections).1 = e) := by
  obtain ⟨hc, hm⟩ := hw
  refine ⟨?_, ?_, ?_⟩
  · simp only [Endpoint.increment_connections]
    split
    · next hle => simpa using hle
    · next hlt => simpa using Nat.lt_of_not_le hlt
  · intro hlt
    simp only [Endpoint.increment_connections]
    split
    · next hle => omega
    · next _ =>
      have : e.current_connections + 1 < u32Mod := by omega
      simp [u32wrapAdd_eq _ this]
  · intro hge
    simp only [Endpoint.increment_connections]
    split
    · next _ => simp [u32wrapSub_u32wrapAdd _ hc]
    · next hlt => omega

/-- closed instance of C2 at a concrete endpoint -/
theorem C2_witness :
    ({ Endpoint.new "http://a" 1 2 with current_connections := 1 } : Endpoint).wf ∧
    ((({ Endpoint.new "http://a" 1 2 with
          current_connections := 1 } : Endpoint).increment_connections).2 = true ↔
      (1 : Nat) < 2) :=
  ⟨⟨by decide, by decide⟩,
   by
    have h := C2_try_acquire
      { Endpoint.new "http://a" 1 2 with current_connections := 1 }
      ⟨by decide, by decide⟩
    exact h.1⟩

/-- C10 as stated is false at an endpoint whose `max_connections` is
2^32 - 1: decrementing at 0 does wrap the counter to 2^32 - 1, but that
value does NOT violate `current_connections ≤ max_connections`. -/
theorem C10_counterexample :
    (Endpoint.new "http://a" 1 (u32Mod - 1)).current_connections = 0 ∧
    ((Endpoint.new "http://a" 1 (u32Mod - 1)).decrement_connections).current_connections =
      u32Mod - 1 ∧
    ((Endpoint.new "http://a" 1 (u32Mod - 1)).decrement_connections).current_connections ≤
      (Endpoint.new "http://a" 1 (u32Mod - 1)).max_connections := by
  refine ⟨rfl, ?_, ?_⟩ <;>
    simp [Endpoint.new, Endpoint.decrement_connections, u32wrapSub_zero]

/-- C10 amended: `release` (`decrement_connections`) is an unconditional
wrapping fetch_sub: it decreases the counter by one when it is positive,
and at 0 wraps it to 2^32 - 1; the wrapped value exceeds `max_connections`
whenever `max_connections < 2^32 - 1`. -/
theorem C10_release (e : Endpoint) (h : e.current_connections < u32Mod) :
    (0 < e.current_connections →
      (e.decrement_connections).current_connections = e.current_connections - 1) ∧
    (e.current_connections = 0 →
      (e.decrement_connections).current_connections = u32Mod - 1) ∧
    (e.current_connections = 0 → e.max_connections < u32Mod - 1 →
      e.max_connections < (e.decrement_connections).current_connections) := by
  refine ⟨?_, ?_, ?_⟩
  · intro h0
    simp [Endpoint.decrement_connections, u32wrapSub_eq _ h0 h]
  · intro h0
    simp [Endpoint.decrement_connections, h0, u32wrapSub_zero]
  · intro h0 hm
    simp [Endpoint.decrement_connections, h0, u32wrapSub_zero]
    exact hm

/-- closed instance of C10 at a concrete endpoint -/
theorem C10_witness :
    ((Endpoint.new "http://a" 1 4).current_connections < u32Mod) ∧
    ((Endpoint.new "http://a" 1 4).current_connections = 0 →
      ((Endpoint.new "http://a" 1 4).decrement_connections).current_connections =
        u32Mod - 1) :=
  ⟨by decide, (C10_release (Endpoint.new "http://a" 1 4) (by decide)).2.1⟩

/-- C1: the code contradicts the claim. At an endpoint at its connection cap
(max_connections = 1 with one connection in flight), `increment_connections`
returns false, yet `ConnectionMiddlewareService::call` discards that result,
still forwards the request, and unconditionally decrements afterwards, so
the endpoint ends the request with current_connections = 0, one BELOW its
pre-request value of 1 (and `handle_proxy` itself performs no accounting and
never answers 503 for a saturated endpoint). -/
theorem C1_middleware_violation :
    ((({ Endpoint.new "http://a" 1 1 with
        current_connections := 1 } : Endpoint).increment_connections).2 = false) ∧
    (middleware_call (.ok { Endpoint.new "http://a" 1 1 with
        current_connections := 1 })).forwarded = true ∧
    (middleware_call (.ok { Endpoint.new "http://a" 1 1 with
        current_connections := 1 })).endpointAfter =
      some { Endpoint.new "http://a" 1 1 with current_connections := 0 } := by
  refine ⟨by decide, rfl, by decide⟩

/-- C8: `check_health` never returns an error (so probe errors cannot escape
the health loop), its returned boolean equals the health flag it stored, the
endpoint ends marked healthy exactly when the liveness probe returned a 2xx
status AND the model-presence probe returned Ok(true), and the loop body
leaves the endpoint exactly as `check_health` marked it. -/
theorem C8_check_health (e : Endpoint) (liveness : Except String Nat)
    (present : Except LoadBalancerError Bool) :
    ((check_health e liveness present).2 =
      .ok ((check_health e liveness present).1.is_healthy)) ∧
    ((check_health e liveness present).1.is_healthy = true ↔
      ((∃ s, liveness = .ok s ∧ statusIsSuccess s = true) ∧ present = .ok true)) ∧
    (health_loop_step e liveness present = (check_health e liveness present).1) := by
  cases liveness with
  | error err =>
    simp [check_health, health_loop_step, Endpoint.mark_unhealthy, Endpoint.is_healthy]
  | ok s =>
    by_cases hs : statusIsSuccess s = true
    · cases present with
      | error err =>
        simp [check_health, health_loop_step, hs, Endpoint.mark_unhealthy,
          Endpoint.is_healthy]
      | ok b =>
        cases b with
        | true =>
          simp [check_health, health_loop_step, hs, Endpoint.mark_healthy,
            Endpoint.is_healthy]
        | false =>
          simp [check_health, health_loop_step, hs, Endpoint.mark_unhealthy,
            Endpoint.is_healthy]
    · have hs2 : statusIsSuccess s = false := by
        cases h2 : statusIsSuccess s
        · rfl
        · exact absurd h2 hs
      simp [check_health, health_loop_step, hs2, Endpoint.mark_unhealthy,
        Endpoint.is_healthy]

/-- closed instance of C8 at concrete probe results -/
theorem C8_witness :
    (check_health (Endpoint.new "http://a" 1 4) (.ok 200) (.ok true)).2 =
      .ok ((check_health (Endpoint.new "http://a" 1 4)
        (.ok 200) (.ok true)).1.is_healthy) :=
  (C8_check_health (Endpoint.new "http://a" 1 4) (.ok 200) (.ok true)).1

/-- C6 as stated is false: a 200 response whose body is an object WITHOUT a
`models` array is answered with an HttpError (serde decode failure), not
with false. -/
theorem C6_counterexample :
    is_model_present (.ok (200, Json.jobj [])) "llama3" =
      .error (.HttpError "error decoding response body") ∧
    is_model_present (.ok (200, Json.jobj [])) "llama3" ≠ .ok false := by
  refine ⟨rfl, ?_⟩
  intro h
  exact Except.noConfusion h

/-- C6 amended: is_model_present answers Ok(true) iff the body decodes as a
ModelsResponse one of whose entries has `name` or `model` equal to the
queried name; a 200 with an EMPTY models array answers Ok(false); a 200
whose body carries NO models array is a decode failure and propagates as an
HttpError, as do transport failures; the HTTP status is never consulted. -/
theorem C6_is_model_present (s : Nat) (body : Json) (q msg : String) :
    (is_model_present (.error msg) q = .error (.HttpError msg)) ∧
    (∀ ms, decodeModelsResponse body = some ms →
      (is_model_present (.ok (s, body)) q = .ok true ↔
        ∃ m ∈ ms.models, m.name = q ∨ m.model = q)) ∧
    (decodeModelsResponse body = none →
      is_model_present (.ok (s, body)) q =
        .error (.HttpError "error decoding response body")) ∧
    (is_model_present (.ok (s, Json.jobj [("models", Json.jarr [])])) q = .ok false) ∧
    (is_model_present (.ok (s, Json.jobj [])) q =
      .error (.HttpError "error decoding response body")) := by
  refine ⟨rfl, ?_, ?_, rfl, rfl⟩
  · intro ms hms
    simp only [is_model_present, hms]
    constructor
    · intro h
      have hany : (ms.models.any fun model =>
          model.name == q || model.model == q) = true := by
        cases hh : ms.models.any fun model => model.name == q || model.model == q
        · rw [hh] at h
          exact absurd (Except.ok.injEq _ _ ▸ h) (by simp)
        · rfl
      rcases List.any_eq_true.mp hany with ⟨m, hm, hp⟩
      rcases Bool.or_eq_true_iff.mp hp with h1 | h1
      · exact ⟨m, hm, Or.inl (by simpa using h1)⟩
      · exact ⟨m, hm, Or.inr (by simpa using h1)⟩
    · rintro ⟨m, hm, hp⟩
      have hany : (ms.models.any fun model =>
          model.name == q || model.model == q) = true := by
        refine List.any_eq_true.mpr ⟨m, hm, ?_⟩
        rcases hp with h1 | h1
        · simp [h1]
        · simp [h1]
      rw [hany]
  · intro hnone
    simp only [is_model_present, hnone]

/-- closed instance of C6 (amended) at a concrete decoded body -/
theorem C6_witness :
    decodeModelsResponse (Json.jobj [("models", Json.jarr
        [Json.jobj [("name", Json.jstr "llama3"), ("model", Json.jstr "llama3")]])]) =
      some { models := [{ name := "llama3", model := "llama3" }] } ∧
    (is_model_present (.ok (200, Json.jobj [("models", Json.jarr
        [Json.jobj [("name", Json.jstr "llama3"), ("model", Json.jstr "llama3")]])]))
        "llama3" = .ok true ↔
      ∃ m ∈ [({ name := "llama3", model := "llama3" } : Model)],
        m.name = "llama3" ∨ m.model = "llama3") :=
  ⟨rfl,
   (C6_is_model_present 200 (Json.jobj [("models", Json.jarr
       [Json.jobj [("name", Json.jstr "llama3"), ("model", Json.jstr "llama3")]])])
     "llama3" "x").2.1
     { models := [{ name := "llama3", model := "llama3" }] } rfl⟩

/-- C7 as stated is false: with a first endpoint whose ensure_model fails
and a second whose ensure_model succeeds, the bootstrap returns Ok, not an
aggregated error. -/
theorem C7_counterexample :
    (ensure_model (Endpoint.new "http://a" 1 4) (.error (.HttpError "down"))
        (.ok ())).2 = .error (.HttpError "down") ∧
    (initSystem
        [⟨Endpoint.new "http://a" 1 4, .error (.HttpError "down"), .ok ()⟩,
         ⟨Endpoint.new "http://b" 1 4, .ok true, .ok ()⟩]).2 = .ok () := by
  exact ⟨rfl, rfl⟩

/-- C7 amended: bootstrap runs ensure_model per endpoint in order, and the
i-th resulting endpoint is marked healthy exactly when its ensure_model
succeeded; the aggregate succeeds iff at least one endpoint succeeded, and
returns the ConfigError "No healthy endpoints after initialization" only
when every endpoint failed. -/
theorem C7_bootstrap (entries : List BootEntry) :
    ((initSystem entries).1.length = entries.length) ∧
    (∀ i (hi : i < entries.length) (hi2 : i < (initSystem entries).1.length),
      ((initSystem entries).1.get ⟨i, hi2⟩).is_healthy =
        exceptOk (ensure_model (entries.get ⟨i, hi⟩).ep (entries.get ⟨i, hi⟩).present
          (entries.get ⟨i, hi⟩).pullResult).2) ∧
    ((initSystem entries).2 = .ok () ↔
      ∃ t ∈ entries, (ensure_model t.ep t.present t.pullResult).2 = .ok ()) ∧
    ((¬ ∃ t ∈ entries, (ensure_model t.ep t.present t.pullResult).2 = .ok ()) →
      (initSystem entries).2 =
        .error (.ConfigError "No healthy endpoints after initialization")) := by
  have hupd : ∀ t : BootEntry,
      (Endpoint.is_healthy
        (match (ensure_model t.ep t.present t.pullResult).2 with
          | .ok _ => (ensure_model t.ep t.present t.pullResult).1.mark_healthy
          | .error _ => (ensure_model t.ep t.present t.pullResult).1.mark_unhealthy)) =
        exceptOk (ensure_model t.ep t.present t.pullResult).2 := by
    intro t
    cases h : (ensure_model t.ep t.present t.pullResult).2 with
    | ok u => simp [Endpoint.mark_healthy, Endpoint.is_healthy, exceptOk]
    | error err => simp [Endpoint.mark_unhealthy, Endpoint.is_healthy, exceptOk]
  have hany : ((entries.map (fun t =>
      match (ensure_model t.ep t.present t.pullResult).2 with
      | .ok _ => (ensure_model t.ep t.present t.pullResult).1.mark_healthy
      | .error _ => (ensure_model t.ep t.present t.pullResult).1.mark_unhealthy)).any
        (fun e => e.is_healthy)) = true ↔
      ∃ t ∈ entries, (ensure_model t.ep t.present t.pullResult).2 = .ok () := by
    rw [List.any_eq_true]
    constructor
    · rintro ⟨x, hx, hp⟩
      rcases List.mem_map.mp hx with ⟨t, ht, rfl⟩
      refine ⟨t, ht, ?_⟩
      rw [hupd t] at hp
      cases h2 : (ensure_model t.ep t.present t.pullResult).2 with
      | ok u => cases u; rfl
      | error err => rw [h2] at hp; exact absurd hp (by simp [exceptOk])
    · rintro ⟨t, ht, hp⟩
      refine ⟨_, List.mem_map.mpr ⟨t, ht, rfl⟩, ?_⟩
      rw [hupd t, hp]
      rfl
  refine ⟨?_, ?_, ?_, ?_⟩
  · simp only [initSystem]
    split
    · simp
    · simp
  · intro i hi hi2
    have hget : (initSystem entries).1 = entries.map (fun t =>
        match (ensure_model t.ep t.present t.pullResult).2 with
        | .ok _ => (ensure_model t.ep t.present t.pullResult).1.mark_healthy
        | .error _ => (ensure_model t.ep t.present t.pullResult).1.mark_unhealthy) := by
      simp only [initSystem]
      split
      · rfl
      · rfl
    have hi3 : i < (entries.map (fun t =>
        match (ensure_model t.ep t.present t.pullResult).2 with
        | .ok _ => (ensure_model t.ep t.present t.pullResult).1.mark_healthy
        | .error _ =>
          (ensure_model t.ep t.present t.pullResult).1.mark_unhealthy)).length := by
      simpa using hi
    rw [list_get_congr _ _ hget i hi2 hi3]
    rw [List.get_map]
    exact hupd _
  · simp only [initSystem]
    split
    · next hcond => simpa using hany.mp hcond
    · next hcond =>
      constructor
      · intro h
        exact absurd h (by simp)
      · intro h
        exact absurd (hany.mpr h) hcond
  · intro h
    simp only [initSystem]
    split
    · next hcond => exact absurd (hany.mp hcond) h
    · next hcond => rfl

/-- closed instance of C7 (amended) at a concrete entry list -/
theorem C7_witness :
    (initSystem [⟨Endpoint.new "http://a" 1 4, .ok true, .ok ()⟩]).2 = .ok () ↔
      ∃ t ∈ [(⟨Endpoint.new "http://a" 1 4, .ok true, .ok ()⟩ : BootEntry)],
        (ensure_model t.ep t.present t.pullResult).2 = .ok () :=
  (C7_bootstrap [⟨Endpoint.new "http://a" 1 4, .ok true, .ok ()⟩]).2.2.1

/-- membership in the healthy filter means the endpoint is healthy -/
theorem mem_healthy_filter (endpoints : List Endpoint) (e : Endpoint)
    (h : e ∈ endpoints.filter (fun e => e.is_healthy)) : e.is_healthy = true :=
  (List.mem_filter.mp h).2

/-- the healthy filter is empty exactly when every endpoint is unhealthy -/
theorem healthy_filter_nil_iff (endpoints : List Endpoint) :
    endpoints.filter (fun e => e.is_healthy) = [] ↔
      ∀ e ∈ endpoints, e.is_healthy = false := by
  rw [List.filter_eq_nil]
  constructor
  · intro h e he
    have h2 := h e he
    cases hb : e.is_healthy
    · rfl
    · exact absurd hb h2
  · intro h e he
    rw [h e he]
    exact Bool.false_ne_true

/-- the fold used by min_by_key returns the first element of acc :: xs
attaining the minimum key: everything strictly before it has a strictly
larger key, and nothing has a smaller key -/
theorem foldl_min_spec (key : Endpoint → Nat) (xs : List Endpoint) :
    ∀ acc : Endpoint, ∃ r l1 l2,
      List.foldl (fun a y => if key y < key a then y else a) acc xs = r ∧
      acc :: xs = l1 ++ r :: l2 ∧
      (∀ y ∈ l1, key r < key y) ∧
      (∀ y ∈ acc :: xs, key r ≤ key y) := by
  induction xs with
  | nil =>
    intro acc
    refine ⟨acc, [], [], rfl, rfl, ?_, ?_⟩
    · intro y hy
      exact absurd hy (List.not_mem_nil y)
    · intro y hy
      rcases List.mem_cons.mp hy with rfl | hy2
      · exact Nat.le_refl _
      · exact absurd hy2 (List.not_mem_nil y)
  | cons x xs ih =>
    intro acc
    rw [List.foldl_cons]
    by_cases hx : key x < key acc
    · rw [if_pos hx]
      rcases ih x with ⟨r, l1, l2, hr, hsplit, hl1, hmin⟩
      have hrx : key r ≤ key x := hmin x (List.mem_cons_self x xs)
      refine ⟨r, acc :: l1, l2, hr, ?_, ?_, ?_⟩
      · rw [List.cons_append, ← hsplit]
      · intro y hy
        rcases List.mem_cons.mp hy with rfl | hy2
        · exact Nat.lt_of_le_of_lt hrx hx
        · exact hl1 y hy2
      · intro y hy
        rcases List.mem_cons.mp hy with rfl | hy2
        · exact Nat.le_of_lt (Nat.lt_of_le_of_lt hrx hx)
        · exact hmin y hy2
    · rw [if_neg hx]
      have hax : key acc ≤ key x := Nat.le_of_not_lt hx
      rcases ih acc with ⟨r, l1, l2, hr, hsplit, hl1, hmin⟩
      cases l1 with
      | nil =>
        rw [List.nil_append] at hsplit
        injection hsplit with h1 h2
        refine ⟨r, [], x :: xs, hr, ?_, ?_, ?_⟩
        · rw [List.nil_append, ← h1]
        · intro y hy
          exact absurd hy (List.not_mem_nil y)
        · intro y hy
          rcases List.mem_cons.mp hy with rfl | hy2
          · rw [← h1]
          · rcases List.mem_cons.mp hy2 with rfl | hy3
            · rw [← h1]
              exact hax
            · exact hmin y (List.mem_cons_of_mem acc hy3)
      | cons a t =>
        rw [List.cons_append] at hsplit
        injection hsplit with h1 h2
        have hra : key r < key acc := by
          rw [h1]
          exact hl1 a (List.mem_cons_self a t)
        refine ⟨r, acc :: x :: t, l2, hr, ?_, ?_, ?_⟩
        · rw [h2, List.cons_append, List.cons_append]
        · intro y hy
          rcases List.mem_cons.mp hy with rfl | hy2
          · exact hra
          · rcases List.mem_cons.mp hy2 with rfl | hy3
            · exact Nat.lt_of_lt_of_le hra hax
            · exact hl1 y (List.mem_cons_of_mem a hy3)
        · intro y hy
          rcases List.mem_cons.mp hy with rfl | hy2
          · exact hmin y (List.mem_cons_self y xs)
          · rcases List.mem_cons.mp hy2 with rfl | hy3
            · exact Nat.le_trans (hmin acc (List.mem_cons_self acc xs)) hax
            · exact hmin y (List.mem_cons_of_mem acc hy3)

/-- min_by_key on a nonempty list returns the first element attaining the
minimum key -/
theorem min_by_key_spec (key : Endpoint → Nat) (x : Endpoint) (xs : List Endpoint) :
    ∃ r l1 l2, min_by_key key (x :: xs) = some r ∧
      x :: xs = l1 ++ r :: l2 ∧
      (∀ y ∈ l1, key r < key y) ∧
      (∀ y ∈ x :: xs, key r ≤ key y) := by
  rcases foldl_min_spec key xs x with ⟨r, l1, l2, hr, hsplit, hl1, hmin⟩
  refine ⟨r, l1, l2, ?_, hsplit, hl1, hmin⟩
  simp only [min_by_key]
  rw [hr]

/-- C5: when at least one endpoint is healthy, least-connections returns an
endpoint of the healthy sublist whose connections() is minimal over that
sublist, and it is the FIRST minimal one in original order: every healthy
endpoint strictly before it has strictly more connections. -/
theorem C5_least_connections (endpoints : List Endpoint)
    (h : ∃ e ∈ endpoints, e.is_healthy = true) :
    ∃ res l1 l2,
      LeastConnections.next_endpoint endpoints = .ok res ∧
      endpoints.filter (fun e => e.is_healthy) = l1 ++ res :: l2 ∧
      (∀ e ∈ l1, res.get_connections < e.get_connections) ∧
      (∀ e ∈ endpoints.filter (fun e => e.is_healthy),
        res.get_connections ≤ e.get_connections) := by
  rcases h with ⟨e0, he0, hh⟩
  have hmem : e0 ∈ endpoints.filter (fun e => e.is_healthy) :=
    List.mem_filter.mpr ⟨he0, hh⟩
  cases hfe : endpoints.filter (fun e => e.is_healthy) with
  | nil =>
    rw [hfe] at hmem
    exact absurd hmem (List.not_mem_nil e0)
  | cons x xs =>
    rcases min_by_key_spec Endpoint.get_connections x xs with
      ⟨r, l1, l2, hmb, hsplit, hl1, hmin⟩
    refine ⟨r, l1, l2, ?_, hsplit, hl1, hmin⟩
    simp only [LeastConnections.next_endpoint, hfe]
    rw [if_neg (by simp), hmb]

/-- closed instance of C5 at a concrete endpoint list -/
theorem C5_witness :
    (∃ e ∈ [{ Endpoint.new "http://a" 1 4 with current_connections := 3 },
            { Endpoint.new "http://b" 1 4 with current_connections := 1 }],
        e.is_healthy = true) ∧
    (∃ res l1 l2,
      LeastConnections.next_endpoint
        [{ Endpoint.new "http://a" 1 4 with current_connections := 3 },
         { Endpoint.new "http://b" 1 4 with current_connections := 1 }] = .ok res ∧
      ([{ Endpoint.new "http://a" 1 4 with current_connections := 3 },
        { Endpoint.new "http://b" 1 4 with current_connections := 1 }].filter
          (fun e => e.is_healthy)) = l1 ++ res :: l2 ∧
      (∀ e ∈ l1, res.get_connections < e.get_connections) ∧
      (∀ e ∈ [{ Endpoint.new "http://a" 1 4 with current_connections := 3 },
              { Endpoint.new "http://b" 1 4 with current_connections := 1 }].filter
          (fun e => e.is_healthy),
        res.get_connections ≤ e.get_connections)) :=
  ⟨⟨{ Endpoint.new "http://a" 1 4 with current_connections := 3 },
     List.mem_cons_self _ _, rfl⟩,
   C5_least_connections
     [{ Endpoint.new "http://a" 1 4 with current_connections := 3 },
      { Endpoint.new "http://b" 1 4 with current_connections := 1 }]
     ⟨{ Endpoint.new "http://a" 1 4 with current_connections := 3 },
      List.mem_cons_self _ _, rfl⟩⟩

/-- C3: all three strategies return only healthy endpoints, and each fails
with NoHealthyEndpoints exactly when no endpoint in the list is healthy. -/
theorem C3_strategies (endpoints : List Endpoint) (rr : RoundRobin) (draw : Nat) :
    (∀ e rr1, rr.next_endpoint endpoints = .ok (e, rr1) → e.is_healthy = true) ∧
    (rr.next_endpoint endpoints = .error .NoHealthyEndpoints ↔
      ∀ e ∈ endpoints, e.is_healthy = false) ∧
    (∀ e, LeastConnections.next_endpoint endpoints = .ok e → e.is_healthy = true) ∧
    (LeastConnections.next_endpoint endpoints = .error .NoHealthyEndpoints ↔
      ∀ e ∈ endpoints, e.is_healthy = false) ∧
    (∀ e, RandomStrategy.next_endpoint draw endpoints = .ok e → e.is_healthy = true) ∧
    (RandomStrategy.next_endpoint draw endpoints = .error .NoHealthyEndpoints ↔
      ∀ e ∈ endpoints, e.is_healthy = false) := by
  have hiff : (endpoints.filter (fun e => e.is_healthy)).length = 0 ↔
      ∀ e ∈ endpoints, e.is_healthy = false := by
    rw [List.length_eq_zero]
    exact healthy_filter_nil_iff endpoints
  refine ⟨?_, ?_, ?_, ?_, ?_, ?_⟩
  · intro e rr1 h
    simp only [RoundRobin.next_endpoint] at h
    split at h
    · exact Except.noConfusion h
    · injection h with h2
      have h3 : (endpoints.filter (fun e => e.is_healthy)).get _ = e :=
        congrArg Prod.fst h2
      rw [← h3]
      exact mem_healthy_filter endpoints _ (List.get_mem _ _ _)
  · simp only [RoundRobin.next_endpoint]
    split
    · next hc => simpa using hiff.mp hc
    · next hc =>
      constructor
      · intro h
        exact Except.noConfusion h
      · intro h
        exact absurd (hiff.mpr h) hc
  · intro e h
    simp only [LeastConnections.next_endpoint] at h
    split at h
    · exact Except.noConfusion h
    · next hc =>
      have hne : endpoints.filter (fun e => e.is_healthy) ≠ [] := by
        intro hnil
        exact hc (by rw [hnil]; rfl)
      cases hfe : endpoints.filter (fun e => e.is_healthy) with
      | nil => exact absurd hfe hne
      | cons x xs =>
        rcases min_by_key_spec Endpoint.get_connections x xs with
          ⟨r, l1, l2, hmb, hsplit, _, _⟩
        rw [hfe, hmb] at h
        injection h with h2
        rw [← h2]
        have : r ∈ x :: xs := by
          rw [hsplit]
          exact List.mem_append_right l1 (List.mem_cons_self r l2)
        exact mem_healthy_filter endpoints r (hfe ▸ this)
  · simp only [LeastConnections.next_endpoint]
    split
    · next hc => simpa using hiff.mp hc
    · next hc =>
      constructor
      · intro h
        cases hfe : endpoints.filter (fun e => e.is_healthy) with
        | nil => exact absurd (by rw [hfe]; rfl) hc
        | cons x xs =>
          rcases min_by_key_spec Endpoint.get_connections x xs with
            ⟨r, l1, l2, hmb, _, _, _⟩
          rw [hfe, hmb] at h
          exact Except.noConfusion h
      · intro h
        exact absurd (hiff.mpr h) hc
  · intro e h
    simp only [RandomStrategy.next_endpoint] at h
    split at h
    · exact Except.noConfusion h
    · injection h with h2
      rw [← h2]
      exact mem_healthy_filter endpoints _ (List.get_mem _ _ _)
  · simp only [RandomStrategy.next_endpoint]
    split
    · next hc => simpa using hiff.mp hc
    · next hc =>
      constructor
      · intro h
        exact Except.noConfusion h
      · intro h
        exact absurd (hiff.mpr h) hc

/-- closed instance of C3 at a concrete endpoint list -/
theorem C3_witness :
    ∀ e rr1,
      RoundRobin.next_endpoint ⟨0⟩
        [Endpoint.new "http://a" 1 4, Endpoint.new "http://b" 1 4] = .ok (e, rr1) →
      e.is_healthy = true :=
  (C3_strategies [Endpoint.new "http://a" 1 4, Endpoint.new "http://b" 1 4] ⟨0⟩ 0).1

/-- C9 as stated is false: on an ndjson upstream response carrying an extra
header x-request-id, the streaming response built by handle_proxy does NOT
copy the upstream headers through; it carries only the hardcoded
content-type header (the header map the code rebuilds is dropped). -/
theorem C9_counterexample :
    handle_response
      { status := 201,
        headers := [("content-type", "application/x-ndjson"), ("x-request-id", "abc")],
        chunks := [] } =
      .ok { status := 201,
            headers := [("content-type", "application/x-ndjson")],
            body := .streamed [] } ∧
    [("content-type", "application/x-ndjson")] ≠
      [("content-type", "application/x-ndjson"), ("x-request-id", "abc")] := by
  constructor
  · rfl
  · intro h
    exact absurd (congrArg List.length h) (by decide)

/-- C9 amended: when the upstream content-type contains
application/x-ndjson, the dispatcher returns a streaming response whose
STATUS is copied through but whose headers are replaced by the single
hardcoded content-type: application/x-ndjson header; the body forwards the
upstream chunks one-for-one, ok chunks passed through unchanged and
transport errors mapped to an I/O error item. -/
theorem C9_streaming (up : UpstreamResponse) (h : is_stream up.headers = true) :
    ∃ r, handle_response up = .ok r ∧
      r.status = up.status ∧
      r.headers = [("content-type", "application/x-ndjson")] ∧
      ∃ items, r.body = .streamed items ∧
        items.length = up.chunks.length ∧
        (∀ i (hi : i < up.chunks.length) (hi2 : i < items.length),
          (∀ bytes, up.chunks.get ⟨i, hi⟩ = .ok bytes →
            items.get ⟨i, hi2⟩ = .ok bytes) ∧
          (∀ err, up.chunks.get ⟨i, hi⟩ = .error err →
            items.get ⟨i, hi2⟩ = .error ("io error: " ++ err))) := by
  refine ⟨{ status := up.status,
            headers := [("content-type", "application/x-ndjson")],
            body := .streamed (up.chunks.map (fun r =>
              match r with
              | .ok bytes => .ok bytes
              | .error err => .error ("io error: " ++ err))) }, ?_, rfl, rfl, ?_⟩
  · simp only [handle_response, h]
    simp
  · refine ⟨_, rfl, by simp, ?_⟩
    intro i hi hi2
    have hmap : ∀ (hm : i < (up.chunks.map (fun r =>
        match r with
        | .ok bytes => Except.ok bytes
        | .error err => Except.error ("io error: " ++ err))).length),
        (up.chunks.map (fun r =>
          match r with
          | .ok bytes => Except.ok bytes
          | .error err => Except.error ("io error: " ++ err))).get ⟨i, hm⟩ =
          (match up.chunks.get ⟨i, hi⟩ with
            | .ok bytes => Except.ok bytes
            | .error err => Except.error ("io error: " ++ err)) := by
      intro hm
      rw [List.get_map]
    constructor
    · intro bytes hb
      rw [hmap hi2, hb]
    · intro err he
      rw [hmap hi2, he]

/-- getD agrees with get below the length -/
theorem getD_eq_get_of_lt (l : List Endpoint) (n : Nat) (d : Endpoint)
    (h : n < l.length) : l.getD n d = l.get ⟨n, h⟩ := by
  rw [List.getD_eq_get?, List.get?_eq_get h]
  rfl

/-- two offsets below N hitting the same residue are equal -/
theorem mod_hit_unique (N c j : Nat) {t1 t2 : Nat} (h1 : t1 < N) (h2 : t2 < N)
    (e1 : (c + t1) % N = j) (e2 : (c + t2) % N = j) : t1 = t2 := by
  have hm : Nat.ModEq N (c + t1) (c + t2) := e1.trans e2.symm
  have ht : t1 % N = t2 % N := Nat.ModEq.add_left_cancel' c hm
  rwa [Nat.mod_eq_of_lt h1, Nat.mod_eq_of_lt h2] at ht

/-- some offset below N hits residue j -/
theorem mod_hit_exists (N c j : Nat) (hj : j < N) :
    ∃ d, d < N ∧ (c + d) % N = j := by
  have hN : 0 < N := Nat.lt_of_le_of_lt (Nat.zero_le j) hj
  have ha : c % N < N := Nat.mod_lt c hN
  refine ⟨(j + N - c % N) % N, Nat.mod_lt _ hN, ?_⟩
  rw [Nat.add_mod_mod, ← Nat.mod_add_mod]
  have h3 : c % N + (j + N - c % N) = j + N := by omega
  rw [h3, Nat.add_mod_right, Nat.mod_eq_of_lt hj]

/-- a duplicate-free list of naturals whose members all equal d and which
contains d has length exactly one -/
theorem length_eq_one_of_all_eq {l : List Nat} {d : Nat} (hd : d ∈ l)
    (hall : ∀ x ∈ l, x = d) (hnd : l.Nodup) : l.length = 1 := by
  cases l with
  | nil => exact absurd hd (List.not_mem_nil d)
  | cons x t =>
    cases t with
    | nil => rfl
    | cons y t2 =>
      exfalso
      have hx := hall x (List.mem_cons_self x (y :: t2))
      have hy := hall y (List.mem_cons_of_mem x (List.mem_cons_self y t2))
      have hnin : x ∉ y :: t2 := (List.nodup_cons.mp hnd).1
      refine hnin ?_
      rw [hx, hy]
      exact List.mem_cons_self d t2

/-- a duplicate-free list of naturals with all members pairwise equal has
length at most one -/
theorem length_le_one_of_all_eq {l : List Nat}
    (hall : ∀ x ∈ l, ∀ y ∈ l, x = y) (hnd : l.Nodup) : l.length ≤ 1 := by
  cases l with
  | nil => exact Nat.zero_le 1
  | cons x t =>
    cases t with
    | nil => exact Nat.le_refl 1
    | cons y t2 =>
      exfalso
      have hxy := hall x (List.mem_cons_self x (y :: t2)) y
        (List.mem_cons_of_mem x (List.mem_cons_self y t2))
      have hnin : x ∉ y :: t2 := (List.nodup_cons.mp hnd).1
      exact hnin (hxy ▸ List.mem_cons_self y t2)

/-- in a full window of N consecutive offsets, residue j < N is hit
exactly once -/
theorem countP_mod_block (N c j : Nat) (hj : j < N) :
    (List.range N).countP (fun t => (c + t) % N == j) = 1 := by
  rcases mod_hit_exists N c j hj with ⟨d, hd, hhit⟩
  rw [List.countP_eq_length_filter]
  apply length_eq_one_of_all_eq (d := d)
  · refine List.mem_filter.mpr ⟨List.mem_range.mpr hd, ?_⟩
    simp [hhit]
  · intro x hx
    have hx2 := List.mem_filter.mp hx
    have hxr : x < N := List.mem_range.mp hx2.1
    have hxp : (c + x) % N = j := by simpa using hx2.2
    exact mod_hit_unique N c j hxr hd hxp hhit
  · exact List.Nodup.filter _ (List.nodup_range N)

/-- in a window of at most N consecutive offsets, any residue is hit at
most once -/
theorem countP_mod_window (N c j r : Nat) (hr : r ≤ N) :
    (List.range r).countP (fun t => (c + t) % N == j) ≤ 1 := by
  rw [List.countP_eq_length_filter]
  apply length_le_one_of_all_eq
  · intro x hx y hy
    have hx2 := List.mem_filter.mp hx
    have hy2 := List.mem_filter.mp hy
    have hxr : x < N := Nat.lt_of_lt_of_le (List.mem_range.mp hx2.1) hr
    have hyr : y < N := Nat.lt_of_lt_of_le (List.mem_range.mp hy2.1) hr
    have hxp : (c + x) % N = j := by simpa using hx2.2
    have hyp : (c + y) % N = j := by simpa using hy2.2
    exact mod_hit_unique N c j hxr hyr hxp hyp
  · exact List.Nodup.filter _ (List.nodup_range r)

/-- splitting a range of picks into a first part and a shifted rest -/
theorem countP_mod_split (N c j a b : Nat) :
    (List.range (a + b)).countP (fun t => (c + t) % N == j) =
      (List.range a).countP (fun t => (c + t) % N == j) +
      (List.range b).countP (fun t => (c + a + t) % N == j) := by
  rw [List.range_add, List.countP_append, List.countP_map]
  congr 1
  apply List.countP_congr
  intro t ht
  simp only [Function.comp_apply]
  rw [← Nat.add_assoc]

/-- over q full blocks of N consecutive picks, residue j < N is hit
exactly q times -/
theorem countP_mod_blocks (N j : Nat) (hj : j < N) :
    ∀ (q : Nat) (c : Nat),
      (List.range (N * q)).countP (fun t => (c + t) % N == j) = q := by
  intro q
  induction q with
  | zero =>
    intro c
    simp
  | succ k ih =>
    intro c
    rw [Nat.mul_succ, countP_mod_split N c j (N * k) N, ih c,
      countP_mod_block N (c + N * k) j hj]

/-- over any K consecutive offsets, residue j < N is hit either
floor(K/N) or ceil(K/N) = (K+N-1)/N times -/
theorem countP_mod_floor_ceil (N c j K : Nat) (hj : j < N) :
    (List.range K).countP (fun t => (c + t) % N == j) = K / N ∨
    (List.range K).countP (fun t => (c + t) % N == j) = (K + N - 1) / N := by
  have hN : 0 < N := Nat.lt_of_le_of_lt (Nat.zero_le j) hj
  have hsplit : (List.range K).countP (fun t => (c + t) % N == j) =
      K / N + (List.range (K % N)).countP
        (fun t => (c + N * (K / N) + t) % N == j) := by
    conv_lhs => rw [← Nat.div_add_mod K N]
    rw [countP_mod_split N c j (N * (K / N)) (K % N),
      countP_mod_blocks N j hj (K / N) c]
  have hrem := countP_mod_window N (c + N * (K / N)) j (K % N)
    (Nat.le_of_lt (Nat.mod_lt K hN))
  by_cases hr : K % N = 0
  · left
    rw [hsplit, hr]
    simp
  · have h1 : K % N < N := Nat.mod_lt K hN
    have h2 : N * (K / N) + K % N = K := Nat.div_add_mod K N
    have hceil : (K + N - 1) / N = K / N + 1 := by
      have h3 : K + N - 1 = N * (K / N) + (K % N - 1 + N) := by omega
      have h4 : (K % N - 1) / N = 0 := Nat.div_eq_of_lt (by omega)
      rw [h3, Nat.mul_add_div hN, Nat.add_div_right _ hN, h4]
    rcases Nat.le_one_iff_eq_zero_or_eq_one.mp hrem with h0 | hone
    · left
      rw [hsplit, h0]
      simp
    · right
      rw [hceil, hsplit, hone]

/-- rrRun over a fixed healthy set, without counter wrap: the t-th pick is
the healthy endpoint at index (c + t) mod N -/
theorem rrRun_char (endpoints : List Endpoint)
    (hN : 0 < (endpoints.filter (fun e => e.is_healthy)).length) :
    ∀ (K c : Nat), c + K ≤ usizeMod →
      (rrRun endpoints ⟨c⟩ K).1 =
        (List.range K).map (fun t =>
          (endpoints.filter (fun e => e.is_healthy)).getD
            ((c + t) % (endpoints.filter (fun e => e.is_healthy)).length)
            defaultEndpoint) := by
  intro K
  induction K with
  | zero =>
    intro c hc
    rfl
  | succ k ih =>
    intro c hc
    have hstep : (RoundRobin.mk c).next_endpoint endpoints =
        .ok ((endpoints.filter (fun e => e.is_healthy)).get
              ⟨c % (endpoints.filter (fun e => e.is_healthy)).length,
               Nat.mod_lt c hN⟩,
             ⟨(c + 1) % usizeMod⟩) := by
      simp only [RoundRobin.next_endpoint]
      rw [dif_neg (Nat.pos_iff_ne_zero.mp hN)]
    have hunf : (rrRun endpoints ⟨c⟩ (k + 1)).1 =
        (endpoints.filter (fun e => e.is_healthy)).get
          ⟨c % (endpoints.filter (fun e => e.is_healthy)).length, Nat.mod_lt c hN⟩ ::
        (rrRun endpoints ⟨(c + 1) % usizeMod⟩ k).1 := by
      simp only [rrRun, hstep]
    rw [hunf]
    have hhead : (endpoints.filter (fun e => e.is_healthy)).get
        ⟨c % (endpoints.filter (fun e => e.is_healthy)).length, Nat.mod_lt c hN⟩ =
        (endpoints.filter (fun e => e.is_healthy)).getD
          (c % (endpoints.filter (fun e => e.is_healthy)).length)
          defaultEndpoint :=
      (getD_eq_get_of_lt _ _ _ (Nat.mod_lt c hN)).symm
    by_cases hc1 : c + 1 < usizeMod
    · rw [Nat.mod_eq_of_lt hc1, ih (c + 1) (by omega)]
      rw [List.range_succ_eq_map, List.map_cons, List.map_map]
      congr 1
      apply List.map_congr_left
      intro t ht
      simp only [Function.comp_apply]
      have harg : c + 1 + t = c + Nat.succ t := by omega
      rw [harg]
    · have hk : k = 0 := by omega
      subst hk
      have hnil : (rrRun endpoints ⟨(c + 1) % usizeMod⟩ 0).1 = [] := rfl
      rw [hnil, List.range_succ_eq_map]
      simp only [List.range_zero, List.map_nil, List.map_cons]
      congr 1

/-- C4 as stated is false across a counter wrap: with three healthy
endpoints and the round-robin counter at 2^64 - 1, two consecutive picks
both select endpoint a (indices (2^64-1) mod 3 = 0, then 0 mod 3 = 0 after
the counter wraps), so over K = 2 picks endpoint a is chosen 2 times, which
is neither floor(2/3) = 0 nor ceil(2/3) = 1. -/
theorem C4_counterexample :
    ((rrRun [Endpoint.new "http://a" 1 4, Endpoint.new "http://b" 1 4,
             Endpoint.new "http://c" 1 4] ⟨usizeMod - 1⟩ 2).1.count
        (Endpoint.new "http://a" 1 4) = 2) ∧
    ¬((2 : Nat) = 2 / 3 ∨ (2 : Nat) = (2 + 3 - 1) / 3) := by
  constructor
  · decide
  · decide

/-- C4 amended: the round-robin counter is fetch-added by 1 on every pick
(wrapping modulo 2^64, never otherwise reset) and the pick at counter value
v selects the healthy endpoint at index v mod N in original order;
consequently, over any K consecutive picks during which the counter does
not wrap (c + K ≤ 2^64), the healthy index j is selected exactly
floor(K/N) or ceil(K/N) = (K+N-1)/N times. -/
theorem C4_round_robin (endpoints : List Endpoint) (c K j : Nat)
    (hN : 0 < (endpoints.filter (fun e => e.is_healthy)).length)
    (hwrap : c + K ≤ usizeMod)
    (hj : j < (endpoints.filter (fun e => e.is_healthy)).length) :
    ((rrRun endpoints ⟨c⟩ K).1 =
      (List.range K).map (fun t =>
        (endpoints.filter (fun e => e.is_healthy)).getD
          ((c + t) % (endpoints.filter (fun e => e.is_healthy)).length)
          defaultEndpoint)) ∧
    ((List.range K).countP
        (fun t => (c + t) % (endpoints.filter (fun e => e.is_healthy)).length == j) =
        K / (endpoints.filter (fun e => e.is_healthy)).length ∨
      (List.range K).countP
        (fun t => (c + t) % (endpoints.filter (fun e => e.is_healthy)).length == j) =
        (K + (endpoints.filter (fun e => e.is_healthy)).length - 1) /
          (endpoints.filter (fun e => e.is_healthy)).length) :=
  ⟨rrRun_char endpoints hN K c hwrap,
   countP_mod_floor_ceil (endpoints.filter (fun e => e.is_healthy)).length c j K hj⟩

/-- closed instance of C4 (amended) at a concrete endpoint list -/
theorem C4_witness :
    (0 < ([Endpoint.new "http://a" 1 4, Endpoint.new "http://b" 1 4].filter
        (fun e => e.is_healthy)).length) ∧
    ((0 : Nat) + 4 ≤ usizeMod) ∧
    ((0 : Nat) < ([Endpoint.new "http://a" 1 4, Endpoint.new "http://b" 1 4].filter
        (fun e => e.is_healthy)).length) ∧
    ((List.range 4).countP
        (fun t => (0 + t) %
          ([Endpoint.new "http://a" 1 4, Endpoint.new "http://b" 1 4].filter
            (fun e => e.is_healthy)).length == 0) =
        4 / ([Endpoint.new "http://a" 1 4, Endpoint.new "http://b" 1 4].filter
          (fun e => e.is_healthy)).length ∨
      (List.range 4).countP
        (fun t => (0 + t) %
          ([Endpoint.new "http://a" 1 4, Endpoint.new "http://b" 1 4].filter
            (fun e => e.is_healthy)).length == 0) =
        (4 + ([Endpoint.new "http://a" 1 4, Endpoint.new "http://b" 1 4].filter
          (fun e => e.is_healthy)).length - 1) /
          ([Endpoint.new "http://a" 1 4, Endpoint.new "http://b" 1 4].filter
            (fun e => e.is_healthy)).length) :=
  ⟨by decide, by decide, by decide,
   (C4_round_robin [Endpoint.new "http://a" 1 4, Endpoint.new "http://b" 1 4]
     0 4 0 (by decide) (by decide) (by decide)).2⟩

/-- closed instance of C9 at a concrete upstream response -/
theorem C9_witness :
    is_stream [("content-type", "application/x-ndjson")] = true ∧
    ∃ r, handle_response
        { status := 200,
          headers := [("content-type", "application/x-ndjson")],
          chunks := [.ok [104, 105], .error "reset"] } = .ok r ∧
      r.status = 200 ∧
      r.headers = [("content-type", "application/x-ndjson")] ∧
      ∃ items, r.body = .streamed items ∧
        items.length = 2 ∧
        (∀ i (hi : i < ([(.ok [104, 105]), (.error "reset")] :
            List (Except String Chunk)).length) (hi2 : i < items.length),
          (∀ bytes, ([(.ok [104, 105]), (.error "reset")] :
              List (Except String Chunk)).get ⟨i, hi⟩ = .ok bytes →
            items.get ⟨i, hi2⟩ = .ok bytes) ∧
          (∀ err, ([(.ok [104, 105]), (.error "reset")] :
              List (Except String Chunk)).get ⟨i, hi⟩ = .error err →
            items.get ⟨i, hi2⟩ = .error ("io error: " ++ err))) :=
  ⟨by decide,
   C9_streaming
     { status := 200,
       headers := [("content-type", "application/x-ndjson")],
       chunks := [.ok [104, 105], .error "reset"] }
     (by decide)⟩

end OllamaManager
